import Mathlib

/-!
Shallow embedding of the memcacheha cluster client (client.go).

Each replicated operation of `Client` (Add, Set, Get, Increment, Delete,
Touch) dispatches to every healthy node and then runs an aggregation
goroutine over the per-node responses.  We embed each aggregation loop as a
pure function over the list of `NodeResponse`s in arrival order.  External
collaborators (the per-node driver, `GetHealthyNodeCount`, the nested
re-read `Get`) are passed in as explicit parameters: `finalHealthy` is the
value `client.Nodes.GetHealthyNodeCount()` would return at the terminal
re-check, and `reRead` is the outcome of the nested read performed on the
repair path.  A Go nil-pointer dereference caught by the deferred `recover`
handler is modelled by returning `errUnknown`; an aggregation goroutine
that exits without ever publishing to `finishChan` (leaving the caller
blocked forever) is modelled by an `Option` result of `none`.
-/

namespace Memcacheha

/-- A cache item: key, opaque value bytes, optional expiration. -/
structure Item where
  key : String
  value : List Nat
  expiration : Option Nat
  deriving DecidableEq, Repr

/-- Error values of the client and of the memcache driver.  `other` stands
for any transport-level error distinct from the protocol-semantic ones. -/
inductive McError where
  | errCacheMiss : McError
  | errNotStored : McError
  | errNoHealthyNodes : McError
  | errUnknown : McError
  | other : Nat → McError
  deriving DecidableEq, Repr

/-- One per-node response, as published on the operation's status channel:
the originating node (identified by a number), an optional item (reads), an
optional error, and the new value (Increment). -/
structure NodeResponse where
  node : Nat
  item : Option Item
  error : Option McError
  newValue : Nat
  deriving DecidableEq, Repr

/-- Aggregation of `Client.Set`: the response loop discards every response;
before returning `nil` the code re-checks `GetHealthyNodeCount()` and
returns `ErrNoHealthyNodes` if it is zero. -/
def setAggregate (responses : List NodeResponse) (finalHealthy : Nat) :
    Option McError :=
  let _ := responses
  if finalHealthy = 0 then some McError.errNoHealthyNodes else none

/-- Response-collection loop of `Client.Add`: `doSync` becomes true on any
`ErrNotStored` response, and every node answering with a nil error is
appended to `nodesToSync`. -/
def addLoop (doSync : Bool) (nodesToSync : List Nat) :
    List NodeResponse → Bool × List Nat
  | [] => (doSync, nodesToSync)
  | r :: rest =>
      addLoop (if r.error = some McError.errNotStored then true else doSync)
        (if r.error = none then nodesToSync ++ [r.node] else nodesToSync)
        rest

/-- Aggregation of `Client.Add`.  `reRead` is the result of the nested
`client.Get(item.Key)` on the repair path (item, error).  The source enters
the write-back branch only when the re-read ERRS (`if err != nil`); inside
that branch it first dereferences the re-read item in a log statement, so a
nil re-read item panics and the deferred recover publishes `errUnknown`.
When the re-read succeeds, no repair `Set` is issued at all.  The returned
pair is (caller-visible error, list of repair `Set`s as (node, item)). -/
def addAggregate (responses : List NodeResponse)
    (reRead : Option Item × Option McError) (finalHealthy : Nat) :
    Option McError × List (Nat × Item) :=
  let st := addLoop false [] responses
  if st.1 then
    if st.2 ≠ [] then
      if reRead.2 ≠ none then
        match reRead.1 with
        | none => (some McError.errUnknown, [])
        | some v => (some McError.errNotStored, st.2.map (fun n => (n, v)))
      else (some McError.errNotStored, [])
    else (some McError.errNotStored, [])
  else if finalHealthy = 0 then (some McError.errNoHealthyNodes, [])
  else (none, [])

/-- Response-collection loop of `Client.Get`: every `ErrCacheMiss` node is
appended to `nodesToSync`, and `item` is overwritten by each response with
a nil error and a non-nil item (so the last such response wins). -/
def getLoop (item : Option Item) (nodesToSync : List Nat) :
    List NodeResponse → Option Item × List Nat
  | [] => (item, nodesToSync)
  | r :: rest =>
      getLoop (if r.error = none ∧ r.item ≠ none then r.item else item)
        (if r.error = some McError.errCacheMiss then nodesToSync ++ [r.node]
         else nodesToSync)
        rest

/-- Aggregation of `Client.Get`.  If some node returned an item, the item is
written back to every cache-miss node and returned; otherwise the result is
`ErrCacheMiss`.  The `finalHealthy` parameter records what
`GetHealthyNodeCount()` would return at terminal time: the source of `Get`
never consults it (there is no terminal healthy-count re-check in `Get`). -/
def getAggregate (responses : List NodeResponse) (finalHealthy : Nat) :
    (Option Item × Option McError) × List (Nat × Item) :=
  let _ := finalHealthy
  let st := getLoop none [] responses
  match st.1 with
  | some it => ((some it, none), st.2.map (fun n => (n, it)))
  | none => ((none, some McError.errCacheMiss), [])

/-- Trimming loop of `Client.Get`: delete nodes from the snapshot until at
most `target` remain (the Go code deletes map keys in iteration order; we
model the snapshot as a list and delete from the front). -/
def trimLoop (target : Nat) : List Nat → List Nat
  | [] => []
  | n :: ns =>
      if (n :: ns).length ≤ target then n :: ns else trimLoop target ns

/-- Quorum sizing of `Client.Get`: with more than 2 healthy nodes, the
snapshot is reduced to `nodesToRead` nodes, where `nodesToRead` is `n/2`
rounded up when `n/2 * 2 < n`. -/
def quorumNodes (nodes : List Nat) : List Nat :=
  let nodeCount := nodes.length
  if nodeCount > 2 then
    let nodesToRead := nodeCount / 2
    let nodesToRead :=
      if nodesToRead * 2 < nodeCount then nodesToRead + 1 else nodesToRead
    trimLoop nodesToRead nodes
  else nodes

/-- Mutable state of the `Client.Increment` response loop: the running
maximum, the node attaining it, the `newValues` map (modelled as an
association list in insertion order) and the nodes to synchronise. -/
structure IncState where
  maxValue : Option Nat
  maxNode : Option Nat
  newValues : List (Nat × Nat)
  nodesToSync : List Nat
  deriving DecidableEq, Repr

/-- Update of the running maximum in `Client.Increment`.  Note that
`newValues[response.Node] = response.NewValue` is executed only inside this
branch, i.e. only for responses that set a new running maximum. -/
def incTake (st : IncState) (r : NodeResponse) : IncState :=
  { st with
    maxNode := some r.node
    newValues := st.newValues ++ [(r.node, r.newValue)]
    maxValue := some r.newValue }

/-- Response-collection loop of `Client.Increment`. -/
def incLoop (st : IncState) : List NodeResponse → IncState
  | [] => st
  | r :: rest =>
      let st1 :=
        if r.error = some McError.errCacheMiss then
          { st with nodesToSync := st.nodesToSync ++ [r.node] }
        else st
      let st2 :=
        if r.error = none then
          match st1.maxValue with
          | none => incTake st1 r
          | some v => if v < r.newValue then incTake st1 r else st1
        else st1
      incLoop st2 rest

/-- Aggregation of `Client.Increment`.  `reRead` is the outcome of the
re-read `maxNode.Get(key, statusChan)` on the repair path.  When that
re-read errs, the goroutine logs and returns WITHOUT publishing anything to
`finishChan`, so the caller blocks forever: this is the `none` result.  A
successful re-read carrying a nil item would panic on the item dereference
and be recovered as `errUnknown`.  As in `Get`, `finalHealthy` is recorded
but never consulted: `Increment` has no terminal healthy-count re-check. -/
def incrementAggregate (responses : List NodeResponse)
    (reRead : Option Item × Option McError) (finalHealthy : Nat) :
    Option ((Nat × Option McError) × List (Nat × Item)) :=
  let _ := finalHealthy
  let st := incLoop ⟨none, none, [], []⟩ responses
  match st.maxNode with
  | none => some ((0, some McError.errCacheMiss), [])
  | some _ =>
      let maxV := st.maxValue.getD 0
      let nodesToSync :=
        st.nodesToSync ++ (st.newValues.filter (fun p => p.2 < maxV)).map Prod.fst
      if nodesToSync ≠ [] then
        if reRead.2 ≠ none then none
        else
          match reRead.1 with
          | none => some ((0, some McError.errUnknown), [])
          | some it => some ((maxV, none), nodesToSync.map (fun n => (n, it)))
      else some ((maxV, none), [])

/-- Response-collection loop shared by `Client.Delete` and `Client.Touch`:
`errToReturn` becomes `ErrCacheMiss` as soon as any node reports it. -/
def missLoop (errToReturn : Option McError) : List NodeResponse → Option McError
  | [] => errToReturn
  | r :: rest =>
      missLoop
        (if r.error = some McError.errCacheMiss then some McError.errCacheMiss
         else errToReturn)
        rest

/-- Aggregation of `Client.Delete`: the terminal healthy-count re-check runs
before `errToReturn` is published. -/
def deleteAggregate (responses : List NodeResponse) (finalHealthy : Nat) :
    Option McError :=
  let errToReturn := missLoop none responses
  if finalHealthy = 0 then some McError.errNoHealthyNodes else errToReturn

/-- Aggregation of `Client.Touch`: identical response handling to
`Client.Delete`. -/
def touchAggregate (responses : List NodeResponse) (finalHealthy : Nat) :
    Option McError :=
  let errToReturn := missLoop none responses
  if finalHealthy = 0 then some McError.errNoHealthyNodes else errToReturn

/-- Per-source body of `Client.GetNodes`: every reported address is inserted
into the `incomingNodes` set and, when not yet present, added to the
`NodeList`.  The pair is (incoming set, current NodeList), both as lists. -/
def addSourceNodes (acc : List String × List String) :
    List String → List String × List String
  | [] => acc
  | addr :: rest =>
      addSourceNodes
        (if addr ∈ acc.1 then acc.1 else acc.1 ++ [addr],
         if addr ∈ acc.2 then acc.2 else acc.2 ++ [addr])
        rest

/-- Source loop of `Client.GetNodes`: an erroring source (modelled as
`none`) makes the function return immediately with the current `NodeList`
as it stands — additions from earlier sources are kept and the removal
phase never runs.  When every source succeeds, nodes absent from the union
of reports are removed. -/
def getNodesLoop (incoming : List String) (current : List String) :
    List (Option (List String)) → List String
  | [] => current.filter (fun a => decide (a ∈ incoming))
  | none :: _ => current
  | some addrs :: rest =>
      let acc := addSourceNodes (incoming, current) addrs
      getNodesLoop acc.1 acc.2 rest

/-- `Client.GetNodes`: reconcile the `NodeList` against the reports of the
configured sources (each source reports `some` address list or errs). -/
def getNodes (sources : List (Option (List String))) (nodeList : List String) :
    List String :=
  getNodesLoop [] nodeList sources

/-- `Client.HealthCheck`: walk the nodes, invoking each node's health check
(each node's outcome is given as `none` for no error, `some e` for an
error); the loop returns the first error immediately, leaving the
remaining nodes unchecked.  The result is the list of nodes actually
checked plus the returned error. -/
def clientHealthCheck : List (Nat × Option McError) → List Nat × Option McError
  | [] => ([], none)
  | (idv, none) :: rest =>
      let tail := clientHealthCheck rest
      (idv :: tail.1, tail.2)
  | (idv, some e) :: _ => ([idv], some e)

/-- The items carried by responses with a nil error (the set `P` of the
spec, in arrival order). -/
def getItems (responses : List NodeResponse) : List Item :=
  responses.filterMap (fun r => if r.error = none then r.item else none)

/-- The nodes answering `ErrCacheMiss` (the set `N` of the spec, in arrival
order). -/
def missNodes (responses : List NodeResponse) : List Nat :=
  (responses.filter
      (fun r => decide (r.error = some McError.errCacheMiss))).map
    (fun r => r.node)

/-- A concrete item used by the concrete evaluations below. -/
def itemV : Item := { key := "x", value := [118], expiration := none }

/-- C1: in `Client.Add`, with node 1 answering `ErrNotStored` (so `M ≠ ∅`)
and node 2 answering nil (so `A ≠ ∅`), and the repair re-read succeeding
with `itemV`, the source issues NO repair `Set` at all: the write-back
branch is guarded by `if err != nil`, so a successful re-read skips it.
The claim says `Set(itemV)` is issued to node 2. -/
theorem c1_code_eval :
    addAggregate
        [⟨1, none, some McError.errNotStored, 0⟩, ⟨2, none, none, 0⟩]
        (some itemV, none) 1 =
      (some McError.errNotStored, []) := by decide

/-- C2: in `Client.Increment`, with node 1 answering `NewValue = 3` and
node 2 answering `NewValue = 5` (node 1 needs repair) and the re-read from
the maximum-attaining node failing, the aggregation goroutine returns
without publishing anything to `finishChan` (modelled as `none`): the
caller blocks forever instead of receiving `(5, nil)` as the claim says. -/
theorem c2_code_eval :
    incrementAggregate [⟨1, none, none, 3⟩, ⟨2, none, none, 5⟩]
        (none, some (McError.other 0)) 1 =
      none := by decide

/-- C3: in `Client.Increment`, with responses arriving in the order
node 1 : 5 then node 2 : 3, the repair list is empty — node 2's value 3 is
below the maximum 5, yet node 2 is never repaired because `newValues` only
records responses that set a new running maximum.  The claim requires the
repair set to be `{node 2}` regardless of arrival order. -/
theorem c3_code_eval :
    incrementAggregate [⟨1, none, none, 5⟩, ⟨2, none, none, 3⟩]
        (some itemV, none) 1 =
      some ((5, none), []) := by decide

/-- C6: in `Client.Add`, with node 1 answering `ErrNotStored` and node 2
answering nil, and the repair re-read failing with `ErrCacheMiss`, the
aggregation dereferences the nil re-read item, the panic is recovered, and
the caller receives `ErrUnknown` — not `ErrNotStored` as the claim says. -/
theorem c6_code_eval :
    addAggregate
        [⟨1, none, some McError.errNotStored, 0⟩, ⟨2, none, none, 0⟩]
        (none, some McError.errCacheMiss) 1 =
      (some McError.errUnknown, []) := by decide

/-- C4 counterexample: with `GetHealthyNodeCount()` equal to 0 at terminal
time, `Client.Get` on a single item-carrying response still returns the
item with a nil error, and `Client.Increment` on a single nil-error
response still returns its success result `(5, nil)` — neither performs a
terminal healthy-count re-check, so neither returns `NoHealthyNodes` as
the claim requires of every replicated operation. -/
theorem c4_counterexample :
    getAggregate [⟨1, some itemV, none, 0⟩] 0 = ((some itemV, none), []) ∧
      incrementAggregate [⟨1, none, none, 5⟩] (some itemV, none) 0 =
        some ((5, none), []) ∧
      (some itemV, (none : Option McError)) ≠
        (none, some McError.errNoHealthyNodes) := by decide

/-- C4 amended: `Set`, `Delete` and `Touch` re-check the healthy-node count
after collecting responses and return `NoHealthyNodes` when it is zero;
`Add` does the same on its success path (when no node answered
`ErrNotStored`, i.e. the operation would return nil, it returns
`NoHealthyNodes` instead).  `Get` and `Increment` perform no terminal
healthy-count re-check at all: their results are independent of the
terminal count, so they return their success result even when it is
zero. -/
theorem c4_amended (rs : List NodeResponse)
    (reRead : Option Item × Option McError) (g : Nat) :
    setAggregate rs 0 = some McError.errNoHealthyNodes ∧
      deleteAggregate rs 0 = some McError.errNoHealthyNodes ∧
      touchAggregate rs 0 = some McError.errNoHealthyNodes ∧
      ((addLoop false [] rs).1 = false →
        addAggregate rs reRead 0 = (some McError.errNoHealthyNodes, [])) ∧
      getAggregate rs 0 = getAggregate rs g ∧
      incrementAggregate rs reRead 0 = incrementAggregate rs reRead g := by
  refine ⟨rfl, rfl, rfl, ?_, rfl, rfl⟩
  intro h
  simp only [addAggregate]
  rw [h]
  simp

/-- Witness for C4 amended: a node answering nil keeps `doSync` false, so
`Add` at terminal count 0 returns `NoHealthyNodes` in place of nil, and a
concrete `Increment` result does not change with the terminal count. -/
theorem c4_amended_witness :
    (addLoop false [] [(⟨1, none, none, 0⟩ : NodeResponse)]).1 = false ∧
      addAggregate [(⟨1, none, none, 0⟩ : NodeResponse)] (some itemV, none) 0 =
        (some McError.errNoHealthyNodes, []) ∧
      incrementAggregate [(⟨1, none, none, 5⟩ : NodeResponse)]
          (some itemV, none) 0 =
        incrementAggregate [⟨1, none, none, 5⟩] (some itemV, none) 7 :=
  ⟨by decide,
    (c4_amended [⟨1, none, none, 0⟩] (some itemV, none) 7).2.2.2.1 (by decide),
    (c4_amended [⟨1, none, none, 5⟩] (some itemV, none) 7).2.2.2.2.2⟩

/-- C5 counterexample: with the first source reporting `["a"]` and the
second source erroring, `Client.GetNodes` starting from an empty `NodeList`
ends the round with `["a"]`: the node from the earlier successful source
was added before the abort, so the round is not free of additions as the
claim states. -/
theorem c5_counterexample :
    getNodes [some ["a"], none] [] = ["a"] ∧ (["a"] : List String) ≠ [] := by
  decide

/-- C9 counterexample: with node 1's health check returning an error and
node 2 after it in iteration order, `Client.HealthCheck` checks only node 1
and returns the error — node 2 is never checked, contradicting the claim
that a failing check does not prevent the remaining nodes from being
checked. -/
theorem c9_counterexample :
    clientHealthCheck [(1, some (McError.other 0)), (2, none)] =
        ([1], some (McError.other 0)) ∧
      ([1] : List Nat) ≠ [1, 2] := by decide

/-- C10: in `Client.Delete` and `Client.Touch`, when `GetHealthyNodeCount()`
is 0 after all responses are collected, the operation returns
`NoHealthyNodes` even when some node reported `ErrCacheMiss`: the
healthy-count check is performed before `errToReturn` is published. -/
theorem c10_delete_touch (rs : List NodeResponse)
    (h : ∃ r ∈ rs, r.error = some McError.errCacheMiss) :
    deleteAggregate rs 0 = some McError.errNoHealthyNodes ∧
      touchAggregate rs 0 = some McError.errNoHealthyNodes :=
  ⟨rfl, rfl⟩

theorem trimLoop_length (target : Nat) (l : List Nat) :
    (trimLoop target l).length = min l.length target := by
  induction l with
  | nil => simp [trimLoop]
  | cons n ns ih =>
      rw [trimLoop]
      split
      · rename_i h
        simp only [List.length_cons] at h ⊢
        omega
      · rename_i h
        rw [ih]
        simp only [List.length_cons] at h ⊢
        omega

theorem trimLoop_sublist (target : Nat) (l : List Nat) :
    (trimLoop target l).Sublist l := by
  induction l with
  | nil => simp [trimLoop]
  | cons n ns ih =>
      rw [trimLoop]
      split
      · exact List.Sublist.refl _
      · exact ih.trans (List.sublist_cons_self n ns)

/-- C8: `Client.Get` dispatches to a subset of the healthy snapshot; with
more than 2 healthy nodes the dispatch set has exactly `⌈n/2⌉ = (n+1)/2`
nodes, and with at most 2 healthy nodes the whole snapshot is dispatched
to. -/
theorem c8_quorum (nodes : List Nat) :
    (quorumNodes nodes).Sublist nodes ∧
      (quorumNodes nodes).length =
        if 2 < nodes.length then (nodes.length + 1) / 2
        else nodes.length := by
  simp only [quorumNodes, gt_iff_lt]
  by_cases h : 2 < nodes.length
  · rw [if_pos h, if_pos h]
    refine ⟨trimLoop_sublist _ _, ?_⟩
    rw [trimLoop_length]
    by_cases h2 : nodes.length / 2 * 2 < nodes.length
    · rw [if_pos h2]; omega
    · rw [if_neg h2]; omega
  · rw [if_neg h, if_neg h]
    exact ⟨List.Sublist.refl _, rfl⟩

theorem getLoop_snd (rs : List NodeResponse) :
    ∀ item ns, (getLoop item ns rs).2 = ns ++ missNodes rs := by
  induction rs with
  | nil => intro item ns; simp [getLoop, missNodes]
  | cons r rest ih =>
      intro item ns
      rw [getLoop, ih]
      by_cases h : r.error = some McError.errCacheMiss
      · simp [missNodes, List.filter_cons, h]
      · simp [missNodes, List.filter_cons, h]

theorem getLoop_fst (rs : List NodeResponse) :
    ∀ item ns,
      (getLoop item ns rs).1 = ((getItems rs).getLast?).elim item some := by
  induction rs with
  | nil => intro item ns; simp [getLoop, getItems]
  | cons r rest ih =>
      intro item ns
      rw [getLoop, ih]
      by_cases h : r.error = none ∧ r.item ≠ none
      · obtain ⟨h1, h2⟩ := h
        rcases hx : r.item with _ | x
        · exact absurd hx h2
        · rw [hx] at h2
          have hcons : getItems (r :: rest) = x :: getItems rest := by
            simp [getItems, h1, hx]
          rw [if_pos ⟨h1, h2⟩, hcons]
          rcases hrest : getItems rest with _ | ⟨y, l⟩
          · simp
          · have hne : (y :: l) ≠ ([] : List Item) := by simp
            rw [List.getLast?_cons_cons, List.getLast?_eq_getLast_of_ne_nil hne]
            simp
      · rw [if_neg h]
        have hsame : getItems (r :: rest) = getItems rest := by
          by_cases he : r.error = none
          · have hit : r.item = none := by
              by_contra hne
              exact h ⟨he, hne⟩
            simp [getItems, he, hit]
          · simp [getItems, he]
        rw [hsame]

/-- C7: the exact aggregation of `Client.Get`: when no response carries an
item (the set `P` is empty) the result is `ErrCacheMiss` and no repair is
issued; when some response carries an item, the item of the last such
response is returned with a nil error and asynchronously `Set` on exactly
the nodes that answered `ErrCacheMiss` (the set `N`). -/
theorem c7_get_spec (rs : List NodeResponse) (g : Nat) :
    getAggregate rs g =
      if h : getItems rs = [] then ((none, some McError.errCacheMiss), [])
      else
        ((some ((getItems rs).getLast h), none),
          (missNodes rs).map (fun n => (n, (getItems rs).getLast h))) := by
  simp only [getAggregate]
  by_cases h : getItems rs = []
  · rw [dif_pos h]
    have h1 : (getLoop none [] rs).1 = none := by
      rw [getLoop_fst, h]
      rfl
    rw [h1]
  · rw [dif_neg h]
    have h1 : (getLoop none [] rs).1 = some ((getItems rs).getLast h) := by
      rw [getLoop_fst, List.getLast?_eq_getLast_of_ne_nil h]
      rfl
    have h2 : (getLoop none [] rs).2 = missNodes rs := by
      rw [getLoop_snd]
      rfl
    rw [h1, h2]

/-- A concrete fan-out for the C7 witness: node 1 returns `itemV`, node 2
returns `ErrCacheMiss`. -/
def c7Rs : List NodeResponse :=
  [⟨1, some itemV, none, 0⟩, ⟨2, none, some McError.errCacheMiss, 0⟩]

/-- Witness for C7: on `c7Rs` the aggregation returns `itemV` and repairs
exactly node 2 with it. -/
theorem c7_get_spec_witness :
    getAggregate c7Rs 3 = ((some itemV, none), [(2, itemV)]) :=
  (c7_get_spec c7Rs 3).trans (by decide)

theorem addSourceNodes_mem (addrs : List String) :
    ∀ (acc : List String × List String) (a : String),
      a ∈ acc.2 → a ∈ (addSourceNodes acc addrs).2 := by
  induction addrs with
  | nil => intro acc a h; exact h
  | cons addr rest ih =>
      intro acc a h
      rw [addSourceNodes]
      apply ih
      dsimp only
      split
      · exact h
      · exact List.mem_append_left _ h

theorem getNodesLoop_mem (sources : List (Option (List String))) :
    ∀ (incoming current : List String), none ∈ sources →
      ∀ a ∈ current, a ∈ getNodesLoop incoming current sources := by
  induction sources with
  | nil => intro inc cur h; simp at h
  | cons s rest ih =>
      intro inc cur h a ha
      cases s with
      | none => exact ha
      | some addrs =>
          rw [getNodesLoop]
          have hr : none ∈ rest := by
            rcases List.mem_cons.mp h with h1 | h1
            · simp at h1
            · exact h1
          exact ih _ _ hr a (addSourceNodes_mem addrs _ a ha)

/-- C5 amended: when some source errs during a `Client.GetNodes` round, the
removal phase never runs, so every node of the original `NodeList` is still
present afterwards (no node is removed); but nodes reported by earlier
successful sources of the same round have already been added.  Only when
the erroring source is the first one is the `NodeList` fully unchanged. -/
theorem c5_amended (sources : List (Option (List String)))
    (nodeList : List String) (post2 : List (Option (List String)))
    (nl2 : List String) (h : none ∈ sources) :
    nodeList ⊆ getNodes sources nodeList ∧
      getNodes (none :: post2) nl2 = nl2 :=
  ⟨fun _ ha => getNodesLoop_mem sources [] nodeList h _ ha, rfl⟩

/-- Witness for C5 amended at concrete sources and node lists. -/
theorem c5_amended_witness :
    none ∈ [some ["b"], none] ∧
      ((["x"] : List String) ⊆ getNodes [some ["b"], none] ["x"] ∧
        getNodes (none :: [some ["b"]]) ["y"] = ["y"]) :=
  ⟨by decide, c5_amended [some ["b"], none] ["x"] [some ["b"]] ["y"] (by decide)⟩

theorem clientHealthCheck_all_ok (pre : List (Nat × Option McError)) :
    (∀ p ∈ pre, p.2 = none) →
      clientHealthCheck pre = (pre.map Prod.fst, none) := by
  induction pre with
  | nil => intro _; rfl
  | cons p rest ih =>
      intro h
      rcases p with ⟨a, oe⟩
      have hoe : oe = none := h (a, oe) (List.mem_cons_self _ _)
      subst hoe
      rw [clientHealthCheck, ih (fun q hq => h q (List.mem_cons_of_mem _ hq))]
      simp

theorem clientHealthCheck_first_err (pre : List (Nat × Option McError))
    (idv : Nat) (e : McError) (post : List (Nat × Option McError)) :
    (∀ p ∈ pre, p.2 = none) →
      clientHealthCheck (pre ++ (idv, some e) :: post) =
        (pre.map Prod.fst ++ [idv], some e) := by
  induction pre with
  | nil => intro _; rfl
  | cons p rest ih =>
      intro h
      rcases p with ⟨a, oe⟩
      have hoe : oe = none := h (a, oe) (List.mem_cons_self _ _)
      subst hoe
      rw [List.cons_append, clientHealthCheck,
        ih (fun q hq => h q (List.mem_cons_of_mem _ hq))]
      simp

/-- C9 amended: `Client.HealthCheck` walks the `NodeList` in iteration
order and stops at the first node whose check returns an error: when every
check is error-free, every node is checked; when a node's check errs, the
nodes before it (and the failing node itself) are checked, the error is
returned, and the remaining nodes are NOT checked. -/
theorem c9_amended (pre pre2 post : List (Nat × Option McError)) (idv : Nat)
    (e : McError) (h1 : ∀ p ∈ pre, p.2 = none)
    (h2 : ∀ p ∈ pre2, p.2 = none) :
    clientHealthCheck pre = (pre.map Prod.fst, none) ∧
      clientHealthCheck (pre2 ++ (idv, some e) :: post) =
        (pre2.map Prod.fst ++ [idv], some e) :=
  ⟨clientHealthCheck_all_ok pre h1,
    clientHealthCheck_first_err pre2 idv e post h2⟩

/-- Witness for C9 amended: node 1 alone checks clean; a clean node 3
followed by a failing node 2 and a node 4 stops at node 2. -/
theorem c9_amended_witness :
    (∀ p ∈ [((1 : Nat), (none : Option McError))], p.2 = none) ∧
      (∀ p ∈ [((3 : Nat), (none : Option McError))], p.2 = none) ∧
      (clientHealthCheck [(1, none)] =
          ([((1 : Nat), (none : Option McError))].map Prod.fst, none) ∧
        clientHealthCheck
            ([(3, none)] ++ (2, some (McError.other 0)) :: [(4, none)]) =
          ([((3 : Nat), (none : Option McError))].map Prod.fst ++ [2],
            some (McError.other 0))) :=
  ⟨by decide, by decide,
    c9_amended [(1, none)] [(3, none)] [(4, none)] 2 (McError.other 0)
      (by decide) (by decide)⟩

/-- Witness for C10 at a single cache-miss response. -/
theorem c10_delete_touch_witness :
    (∃ r ∈ [(⟨1, none, some McError.errCacheMiss, 0⟩ : NodeResponse)],
        r.error = some McError.errCacheMiss) ∧
      (deleteAggregate [⟨1, none, some McError.errCacheMiss, 0⟩] 0 =
          some McError.errNoHealthyNodes ∧
        touchAggregate [⟨1, none, some McError.errCacheMiss, 0⟩] 0 =
          some McError.errNoHealthyNodes) :=
  ⟨by decide, c10_delete_touch _ (by decide)⟩

end Memcacheha
